import Mathlib

/-!
Verification development for the LSP transport and session engine of
mcp-language-server: the wire codec (`WriteMessage` / `ReadMessage`), the
dispatch loop (`Client.handleMessages`), the request/response correlation
table used by `Client.Call`, and the parent-process liveness monitor in
`main`.  Byte streams are modelled as `List Char`, the Go map
`map[string]chan *Message` as a function `String → Option Nat` (channel
identifiers are abstracted as naturals), and fallible operations return
`Except` / `Option`.
-/

namespace Mcp

/-! ### Decimal rendering and scanning

`fmt.Fprintf`'s `%d` verb and `fmt.Sscanf`'s `%d` verb, modelled over
`List Char`.  `natChars` renders a natural in decimal (most significant
digit first); `parseNatPre` consumes a maximal nonempty digit run from the
front of a list. -/

/-- The decimal digit character for `d` (used for `d < 10` only). -/
def dChar : Nat → Char
  | 0 => '0' | 1 => '1' | 2 => '2' | 3 => '3' | 4 => '4'
  | 5 => '5' | 6 => '6' | 7 => '7' | 8 => '8' | _ => '9'

/-- Numeric value of a decimal digit character. -/
def digitVal (c : Char) : Nat := c.toNat - 48

/-- Whether `c` is an ASCII decimal digit. -/
def isDigitCh (c : Char) : Bool := 48 ≤ c.toNat && c.toNat ≤ 57

/-- Fuel-driven decimal rendering, most significant digit first. -/
def natCharsAux : Nat → Nat → List Char → List Char
  | 0, _, acc => acc
  | fuel + 1, n, acc =>
    if n < 10 then dChar n :: acc
    else natCharsAux fuel (n / 10) (dChar (n % 10) :: acc)

/-- Decimal rendering of a natural number (what Go's `%d` prints). -/
def natChars (n : Nat) : List Char := natCharsAux (n + 1) n []

/-- Reference form of the decimal rendering, via `Nat.digits`. -/
def repChars (n : Nat) : List Char :=
  if n = 0 then ['0'] else (Nat.digits 10 n).reverse.map dChar

/-- Value of a digit run read most-significant-first. -/
def digitsVal (ds : List Char) : Nat :=
  ds.foldl (fun a c => 10 * a + digitVal c) 0

/-- Scan a maximal nonempty digit run from the front of `cs`. -/
def parseNatPre (cs : List Char) : Option (Nat × List Char) :=
  let ds := cs.takeWhile isDigitCh
  if ds.isEmpty then none else some (digitsVal ds, cs.dropWhile isDigitCh)

/-! ### The message envelope

Modelled from the spec: the `Message` wire envelope and the request
identifier (`Message`, `ID`, `ResponseError` are declared in a repository
file that is not under `src/`; §3 of the design describes them).  A request
identifier is an integer or a string; `method` uses the Go zero value `""`
for "absent"; `params`/`result` are opaque raw payloads; `id` is `none`
when the field is absent or null. -/

/-- Modelled from the spec: a request identifier is either an integer or a
string (spec §3, "Request Identifier"). -/
inductive IDValue
  | num (z : Int)
  | str (s : String)
deriving DecidableEq

/-- Modelled from the spec: the numeric-code-plus-message error member of a
failed response (spec §3). -/
structure ResponseError where
  code : Int
  message : String
deriving DecidableEq

/-- Modelled from the spec: the schema-neutral message envelope (spec §3).
`method = ""` plays the role of an absent method, as in the Go struct's
zero value; `id = none` covers both a nil `ID` pointer and a nil
`ID.Value`. -/
structure Message where
  jsonrpc : String
  id : Option IDValue
  method : String
  params : Option String
  result : Option String
  error : Option ResponseError
deriving DecidableEq

/-! ### Body serialization

Modelled from the spec: `encode` "serializes the envelope to a compact
structured-data format" (spec §4.1); in the source this is
`encoding/json.Marshal` / `Unmarshal` applied to the `Message` struct,
neither of which is under `src/`.  The model uses a length-prefixed
field-sequential format and its exact inverse parser. -/

/-- Serialize a string as `<decimal length> ':' <contents>`. -/
def encStr (s : String) : List Char := natChars s.length ++ ':' :: s.data

/-- Parse a string serialized by `encStr` from the front of `cs`. -/
def parseStrPre (cs : List Char) : Option (String × List Char) :=
  match parseNatPre cs with
  | none => none
  | some (n, rest) =>
    match rest with
    | ':' :: rest' =>
      if n ≤ rest'.length then some (String.mk (rest'.take n), rest'.drop n)
      else none
    | _ => none

/-- Serialize an integer as an optional sign, digits, and `';'`. -/
def encInt (z : Int) : List Char :=
  (if z < 0 then '-' :: natChars z.natAbs else natChars z.natAbs) ++ [';']

/-- Parse an integer serialized by `encInt` from the front of `cs`. -/
def parseIntPre (cs : List Char) : Option (Int × List Char) :=
  let neg : Bool := cs.head? = some '-'
  let t := if neg then cs.drop 1 else cs
  match parseNatPre t with
  | none => none
  | some (n, rest) =>
    match rest with
    | ';' :: rest' => some ((if neg then -(n : Int) else (n : Int)), rest')
    | _ => none

/-- Serialize an optional value with a presence tag. -/
def encOpt (enc : α → List Char) : Option α → List Char
  | none => ['0']
  | some a => '1' :: enc a

/-- Parse an optional value serialized by `encOpt enc`. -/
def parseOptPre (p : List Char → Option (α × List Char)) :
    List Char → Option (Option α × List Char)
  | '0' :: rest => some (none, rest)
  | '1' :: rest => (p rest).map (fun q => (some q.1, q.2))
  | _ => none

/-- Serialize a request identifier with an integer/string tag. -/
def encID : IDValue → List Char
  | .num z => 'n' :: encInt z
  | .str s => 's' :: encStr s

/-- Parse a request identifier serialized by `encID`. -/
def parseIDPre : List Char → Option (IDValue × List Char)
  | 'n' :: rest => (parseIntPre rest).map (fun q => (.num q.1, q.2))
  | 's' :: rest => (parseStrPre rest).map (fun q => (.str q.1, q.2))
  | _ => none

/-- Serialize a response error as code followed by message. -/
def encRespErr (e : ResponseError) : List Char :=
  encInt e.code ++ encStr e.message

/-- Parse a response error serialized by `encRespErr`. -/
def parseRespErrPre (cs : List Char) : Option (ResponseError × List Char) :=
  match parseIntPre cs with
  | none => none
  | some (code, rest) =>
    match parseStrPre rest with
    | none => none
    | some (msg, rest') => some (⟨code, msg⟩, rest')

/-- Modelled from the spec: serialization of the message envelope to a
compact structured-data format (the role `json.Marshal` plays in
`WriteMessage`). -/
def marshalMessage (m : Message) : List Char :=
  encStr m.jsonrpc ++ encOpt encID m.id ++ encStr m.method ++
    encOpt encStr m.params ++ encOpt encStr m.result ++
    encOpt encRespErr m.error

/-- Parse a message envelope from the front of `cs`. -/
def parseMessagePre (cs : List Char) : Option (Message × List Char) :=
  match parseStrPre cs with
  | none => none
  | some (jsonrpc, r1) =>
    match parseOptPre parseIDPre r1 with
    | none => none
    | some (id, r2) =>
      match parseStrPre r2 with
      | none => none
      | some (method, r3) =>
        match parseOptPre parseStrPre r3 with
        | none => none
        | some (params, r4) =>
          match parseOptPre parseStrPre r4 with
          | none => none
          | some (result, r5) =>
            match parseOptPre parseRespErrPre r5 with
            | none => none
            | some (error, r6) =>
              some (⟨jsonrpc, id, method, params, result, error⟩, r6)

/-- Modelled from the spec: deserialization of a message body (the role
`json.Unmarshal` plays in `ReadMessage`); the whole body must be consumed. -/
def unmarshalMessage (cs : List Char) : Option Message :=
  match parseMessagePre cs with
  | some (m, []) => some m
  | _ => none

/-! ### The wire codec: `WriteMessage` and `ReadMessage`

From `src/unnamed/part_000` lines 27-102.  `WriteMessage` emits
`Content-Length: <n>\r\n\r\n` followed by the marshalled body.
`ReadMessage` reads header lines up to an empty line (`bufio.ReadString`
plus `strings.TrimSpace`), interprets only `Content-Length: ` via
`fmt.Sscanf("... %d")`, then reads exactly that many bytes (`io.ReadFull`)
and deserializes them. -/

/-- Decode failures of `ReadMessage`, one constructor per distinct wrapped
error in the source.  `badContentLength` carries the text of the
`Sscanf` error it wraps (`"expected integer"` when the value starts with
a non-digit, `"EOF"` when the input ends right after an accepted sign —
`fmt`'s scanner raises `io.EOF` there).  `negLength` stands in for the Go
runtime panic of `make([]byte, n)` with negative `n` (reachable because
`%d` accepts a sign); no claim depends on it. -/
inductive ReadErr
  | headerEOF
  | badContentLength (detail : String)
  | negLength
  | contentEOF
  | contentUnexpectedEOF
  | unmarshalFailed
deriving DecidableEq

/-- The `err.Error()` string of each decode failure, as produced by the
`fmt.Errorf` wrappings in `ReadMessage` (`%w` of `io.EOF` prints `EOF`,
`io.ErrUnexpectedEOF` prints `unexpected EOF`, and the `Sscanf` error is
wrapped as `invalid Content-Length: <its text>`). -/
def ReadErr.errString : ReadErr → String
  | .headerEOF => "failed to read header: EOF"
  | .badContentLength d => "invalid Content-Length: " ++ d
  | .negLength => "makeslice: len out of range"
  | .contentEOF => "failed to read content: EOF"
  | .contentUnexpectedEOF => "failed to read content: unexpected EOF"
  | .unmarshalFailed => "failed to unmarshal message: invalid envelope"

/-- Whether `sub` is a prefix of `s` (`strings.HasPrefix`). -/
def isPrefixL : List Char → List Char → Bool
  | [], _ => true
  | _ :: _, [] => false
  | c :: cs, d :: ds => c == d && isPrefixL cs ds

/-- Whether `sub` occurs in `s` (`strings.Contains`). -/
def containsSub : List Char → List Char → Bool
  | [], sub => sub.isEmpty
  | s :: rest, sub => isPrefixL sub (s :: rest) || containsSub rest sub

/-- Whitespace as trimmed by `strings.TrimSpace` (the ASCII cases). -/
def isSpaceCh (c : Char) : Bool :=
  c == ' ' || c == '\t' || c == '\n' || c == '\r' ||
    c == '\x0b' || c == '\x0c'

/-- `strings.TrimSpace` over `List Char`. -/
def trimAscii (l : List Char) : List Char :=
  ((l.dropWhile isSpaceCh).reverse.dropWhile isSpaceCh).reverse

/-- One `bufio.Reader.ReadString('\n')`: the line up to and including the
first newline, plus the remaining stream; `none` when the stream ends
first (the EOF case). -/
def splitLine : List Char → Option (List Char × List Char)
  | [] => none
  | c :: rest =>
    if c = '\n' then some ([c], rest)
    else
      match splitLine rest with
      | none => none
      | some (l, r) => some (c :: l, r)

/-- The `Content-Length: ` header key (trailing space included, as in the
source's `strings.HasPrefix` test). -/
def clKey : List Char := "Content-Length: ".data

/-- The `%d` verb after whitespace skipping: accept an optional sign,
then require at least one digit; trailing bytes are ignored, as `Sscanf`
leaves unconsumed input unread.  Failure carries the scanner's error
text: `fmt`'s `scanInt` raises `io.EOF` (`"EOF"`) when the input ends
before any digit could be read — also right after an accepted sign — and
`"expected integer"` when the next byte is not a digit. -/
def scanSigned : List Char → Except String Int
  | [] => .error "EOF"
  | c :: t2 =>
    if c = '-' ∨ c = '+' then
      match parseNatPre t2 with
      | some (n, _) => .ok (if c = '-' then -(n : Int) else (n : Int))
      | none => .error (if t2.isEmpty then "EOF" else "expected integer")
    else
      match parseNatPre (c :: t2) with
      | some (n, _) => .ok ((n : Int))
      | none => .error "expected integer"

/-- The `fmt.Sscanf(line, "Content-Length: %d", &contentLength)` step,
applied to the part of the line after the key: the format's literal space
and the `%d` verb both skip whitespace, then the signed scan runs. -/
def scanCL (v : List Char) : Except String Int :=
  scanSigned (v.dropWhile isSpaceCh)

/-- The header-reading loop of `ReadMessage` (lines 55-75): read lines
until an empty (after trimming) one, returning the last scanned
`Content-Length` value (initially the Go zero value `0`) and the rest of
the stream; EOF during a line read is the `headerEOF` failure; a
`Content-Length: `-prefixed line whose value does not scan is the
`badContentLength` failure. -/
def readHeaders (cl : Int) (s : List Char) : Except ReadErr (Int × List Char) :=
  match hs : splitLine s with
  | none => .error .headerEOF
  | some (line, rest) =>
    let l := trimAscii line
    if l = [] then .ok (cl, rest)
    else if isPrefixL clKey l then
      match scanCL (l.drop clKey.length) with
      | .error d => .error (.badContentLength d)
      | .ok z => readHeaders z rest
    else readHeaders cl rest
termination_by s.length
decreasing_by
  all_goals
    (have key : ∀ (t l r : List Char), splitLine t = some (l, r) →
        r.length < t.length := by
      intro t
      induction t with
      | nil => intro l r h; cases h
      | cons c t2 ih =>
        intro l r h
        by_cases hc : c = '\n'
        · rw [splitLine, if_pos hc] at h
          cases h
          simp
        · rw [splitLine, if_neg hc] at h
          cases ht : splitLine t2 with
          | none => rw [ht] at h; cases h
          | some p =>
            rw [ht] at h
            cases h
            have hlen := ih p.1 p.2 (by rw [ht])
            simp only [List.length_cons]
            omega
     exact key s line rest hs)

/-- The `io.ReadFull` step: exactly `n` bytes, `contentEOF` when the
stream is empty (`io.EOF`), `contentUnexpectedEOF` when it holds some but
fewer than `n` bytes (`io.ErrUnexpectedEOF`). -/
def readFull (n : Nat) (s : List Char) :
    Except ReadErr (List Char × List Char) :=
  if s.length < n then
    if s.length = 0 then .error .contentEOF
    else .error .contentUnexpectedEOF
  else .ok (s.take n, s.drop n)

/-- `ReadMessage` (lines 53-102): headers, then `contentLength` bytes of
body, then deserialization; returns the decoded message and the unread
remainder of the stream. -/
def ReadMessage (s : List Char) : Except ReadErr (Message × List Char) :=
  match readHeaders 0 s with
  | .error e => .error e
  | .ok (cl, rest) =>
    if cl < 0 then .error .negLength
    else
      match readFull cl.toNat rest with
      | .error e => .error e
      | .ok (content, rest') =>
        match unmarshalMessage content with
        | none => .error .unmarshalFailed
        | some m => .ok (m, rest')

/-- `WriteMessage` (lines 27-50): the marshalled body framed by
`Content-Length: <n>\r\n\r\n`. -/
def WriteMessage (m : Message) : List Char :=
  clKey ++ natChars (marshalMessage m).length ++
    '\r' :: '\n' :: '\r' :: '\n' :: marshalMessage m

/-- A character that can appear in an unscannable `Content-Length` value:
not whitespace, not a digit, not a newline, and not a sign. -/
def junkCh (c : Char) : Bool :=
  !isSpaceCh c && !isDigitCh c && c != '\n' && c != '-' && c != '+'

/-! ### The dispatch loop `Client.handleMessages`

From `src/unnamed/part_000` lines 105-199.  Per decoded message, one of
four branches runs: server-to-client request (method and non-null id),
notification (method, null id), response to one of our requests (non-null
id, no method), or none of these (fall through to the next iteration).
`StepOut` records everything a single iteration does: responses written to
the subprocess stdin, the delivery into a waiter's channel, notification
handlers spawned with `go`, and logger calls. -/

/-- Log levels of the `logging` package calls made by the loop. -/
inductive LogLevel
  | debug | info | warn | errorL
deriving DecidableEq

/-- Result of a registered server-request handler (`handler(msg.Params)`):
either a non-nil Go error, or a value whose later `json.Marshal` outcome
is recorded in `MarshalV`. -/
inductive MarshalV
  | marshallable (raw : String)
  | marshalFails (errText : String)
deriving DecidableEq

/-- The `json.Marshal(result)` step of the request branch (line 140). -/
def marshalV : MarshalV → Except String String
  | .marshallable raw => .ok raw
  | .marshalFails e => .error e

/-- Outcome of invoking a registered server-request handler. -/
inductive HandlerRes
  | failed (errText : String)
  | succeeded (v : MarshalV)

/-- The canonical string key of a request identifier, as `%d` renders an
integer. -/
def intChars (z : Int) : List Char :=
  if z < 0 then '-' :: natChars z.natAbs else natChars z.natAbs

/-- Modelled from the spec: `ID.String()`, the canonical string key used
for correlation-table lookup (spec §3, "Request Identifier"; the `ID` type
is not under `src/`). -/
def IDValue.toKey : IDValue → String
  | .num z => ⟨intChars z⟩
  | .str s => s

/-- The correlation table `Client.handlers : map[string]chan *Message`;
channel values are abstracted by numeric identifiers. -/
abbrev Tbl : Type := String → Option Nat

/-- The mutable state of `Client` read by one loop iteration. -/
structure ClientState where
  handlers : Tbl
  serverRequestHandlers : String → Option (Option String → HandlerRes)
  notificationHandlers : String → Option Nat

/-- Everything one iteration of `handleMessages` does with a decoded
message. -/
structure StepOut where
  outMsgs : List Message
  delivered : Option (Nat × Message)
  spawned : List (Nat × Option String)
  logs : List (LogLevel × String)
deriving DecidableEq

/-- The server-to-client request branch (lines 119-165): build a response
with the request's `id`, filling `result` or `error` according to the
handler lookup, the handler outcome, and the marshal step. -/
def handleRequest (c : ClientState) (m : Message) :
    Message × List (LogLevel × String) :=
  let base : Message := ⟨"2.0", m.id, "", none, none, none⟩
  match c.serverRequestHandlers m.method with
  | some handler =>
    match handler m.params with
    | .failed e =>
      ({ base with error := some ⟨-32603, e⟩ },
       [(.debug, "Processing server request: " ++ m.method),
        (.errorL, "Error handling server request " ++ m.method ++ ": " ++ e)])
    | .succeeded v =>
      match marshalV v with
      | .error e =>
        ({ base with
            error := some ⟨-32603, "failed to marshal response: " ++ e⟩ },
         [(.debug, "Processing server request: " ++ m.method),
          (.errorL, "Failed to marshal response for " ++ m.method ++ ": " ++ e)])
      | .ok raw =>
        ({ base with result := some raw },
         [(.debug, "Processing server request: " ++ m.method)])
  | none =>
    ({ base with error := some ⟨-32601, "method not found: " ++ m.method⟩ },
     [(.warn, "Method not found: " ++ m.method)])

/-- One iteration of the dispatch loop body on a decoded message. -/
def stepMessage (c : ClientState) (m : Message) : StepOut :=
  if m.method ≠ "" ∧ m.id.isSome then
    let p := handleRequest c m
    ⟨[p.1], none, [], p.2⟩
  else if m.method ≠ "" then
    match c.notificationHandlers m.method with
    | some h =>
      ⟨[], none, [(h, m.params)],
        [(.debug, "Handling notification: " ++ m.method)]⟩
    | none =>
      ⟨[], none, [], [(.debug, "No handler for notification: " ++ m.method)]⟩
  else
    match m.id with
    | some v =>
      match c.handlers v.toKey with
      | some ch =>
        ⟨[], some (ch, m), [],
          [(.debug, "Sending response for ID " ++ v.toKey ++ " to handler")]⟩
      | none =>
        ⟨[], none, [], [(.debug, "No handler for response ID: " ++ v.toKey)]⟩
    | none => ⟨[], none, [], []⟩

/-- The dispatch loop over a list of successfully decoded messages. -/
def runLoop (c : ClientState) (msgs : List Message) : List StepOut :=
  msgs.map (stepMessage c)

/-- The three message classes of the spec plus the fall-through case. -/
inductive MsgClass
  | peerRequest | peerNotification | response | malformed
deriving DecidableEq

/-- Classification of a decoded message, with the branch conditions of
lines 119, 168 and 183. -/
def classify (m : Message) : MsgClass :=
  if m.method ≠ "" ∧ m.id.isSome then .peerRequest
  else if m.method ≠ "" then .peerNotification
  else if m.id.isSome then .response
  else .malformed

/-- The `strings.Contains(err.Error(), "EOF")` test of line 110. -/
def containsEOF (e : ReadErr) : Bool :=
  containsSub e.errString.data "EOF".data

/-- How the loop terminates on a decode failure. -/
inductive LoopExit
  | clean | errorExit
deriving DecidableEq

/-- Lines 108-116: any decode failure returns from the loop; it is logged
as a normal close (`Info`) when the error text contains `"EOF"`, as an
error otherwise. -/
def loopExitOf (e : ReadErr) : LoopExit :=
  if containsEOF e then .clean else .errorExit

/-! ### The `Call` facade and the correlation table

From `src/unnamed/part_000` lines 202-269. -/

/-- The registration step of `Call` (line 217): a plain Go map
assignment. -/
def registerPending (tbl : Tbl) (idStr : String) (ch : Nat) : Tbl :=
  fun k => if k = idStr then some ch else tbl k

/-- The deferred removal of `Call` (lines 220-224): Go map `delete`. -/
def deletePending (tbl : Tbl) (idStr : String) : Tbl :=
  fun k => if k = idStr then none else tbl k

/-- What the caller passed as `result` (line 202): nil, a
`*json.RawMessage`, or a typed destination whose `json.Unmarshal` outcome
is given. -/
inductive SinkKind
  | noSink | rawSink | typedSink (ok : Bool)

/-- What the environment does once `Call` has registered its channel:
the transport write fails, the context expires before delivery, or the
dispatch loop delivers a response into the channel. -/
inductive CallEnv
  | writeFails
  | ctxDone
  | respArrives (resp : Message)

/-- The value `Call` returns, one constructor per return path after
registration. -/
inductive CallRes
  | errWrite | errTimeout
  | errContentModified | errServerCancelled
  | errPeer (code : Int) (msg : String)
  | errBadResult
  | okDone

/-- `Call` after `NewRequest` succeeded: register the fresh channel under
the canonical id string, send, wait, map the outcome — with the deferred
`delete` applied to the table on every path (lines 213-268).
`protocol.ContentModified = -32801` and `protocol.ServerCancelled =
-32802` are the LSP error codes matched at lines 245-252. -/
def callStep (tbl : Tbl) (idNum : Int) (ch : Nat) (env : CallEnv)
    (sink : SinkKind) : CallRes × Tbl :=
  let idStr : String := ⟨intChars idNum⟩
  let tbl1 := registerPending tbl idStr ch
  let tblF := deletePending tbl1 idStr
  match env with
  | .writeFails => (.errWrite, tblF)
  | .ctxDone => (.errTimeout, tblF)
  | .respArrives resp =>
    match resp.error with
    | some e =>
      if e.code = -32801 then (.errContentModified, tblF)
      else if e.code = -32802 then (.errServerCancelled, tblF)
      else (.errPeer e.code e.message, tblF)
    | none =>
      match sink with
      | .noSink => (.okDone, tblF)
      | .rawSink => (.okDone, tblF)
      | .typedSink ok =>
        if ok then (.okDone, tblF) else (.errBadResult, tblF)

/-- The key under which a response message is looked up in the table. -/
def respKey (m : Message) : Option String := m.id.map IDValue.toKey

/-- A client whose only populated state is the correlation table. -/
def clientWithTbl (tbl : Tbl) : ClientState :=
  ⟨tbl, fun _ => none, fun _ => none⟩

/-- The channel deliveries the dispatch loop performs for a list of
decoded messages, in stream order. -/
def deliveries (tbl : Tbl) (msgs : List Message) : List (Nat × Message) :=
  msgs.filterMap (fun m => (stepMessage (clientWithTbl tbl) m).delivered)

/-- The messages delivered into channel `ch`, in stream order. -/
def receivedBy (tbl : Tbl) (msgs : List Message) (ch : Nat) : List Message :=
  ((deliveries tbl msgs).filter (fun p => p.1 == ch)).map Prod.snd

/-! ### The parent-liveness monitor

From `src/main.go` lines 247-267. -/

/-- The check run on every 100ms tick (line 258): shutdown is initiated
when the sampled parent pid differs from the one captured at startup AND
one of the two is the init pid `1`. -/
def parentCheckFires (startPpid currentPpid : Nat) : Bool :=
  currentPpid != startPpid && (currentPpid == 1 || startPpid == 1)

/-! ### Witness fixtures -/

/-- A correlation table with two registered waiters. -/
def wTbl : Tbl :=
  fun k => if k = "1" then some 10 else if k = "2" then some 20 else none

/-- A response bearing identifier 1. -/
def wResp1 : Message := ⟨"2.0", some (.num 1), "", none, some "r1", none⟩

/-- A response bearing identifier 2. -/
def wResp2 : Message := ⟨"2.0", some (.num 2), "", none, some "r2", none⟩

/-- A handler whose result marshals. -/
def wHandler : Option String → HandlerRes :=
  fun _ => HandlerRes.succeeded (MarshalV.marshallable "null")

/-- A handler whose result fails to marshal. -/
def wBadHandler : Option String → HandlerRes :=
  fun _ => HandlerRes.succeeded (MarshalV.marshalFails "unsupported type")

/-- A client with `wHandler` registered for method `m`. -/
def wClient : ClientState :=
  ⟨fun _ => none, fun s => if s = "m" then some wHandler else none,
    fun _ => none⟩

/-- A client with `wBadHandler` registered for method `m`. -/
def wClientBad : ClientState :=
  ⟨fun _ => none, fun s => if s = "m" then some wBadHandler else none,
    fun _ => none⟩

/-- A server-to-client request for method `m` with identifier 7. -/
def wReq : Message := ⟨"2.0", some (.num 7), "m", none, none, none⟩

/-- A message with no method and no identifier. -/
def malformedMsg : Message := ⟨"2.0", none, "", none, none, none⟩

/-- A client with nothing registered. -/
def emptyClient : ClientState := ⟨fun _ => none, fun _ => none, fun _ => none⟩

/-- The everywhere-empty correlation table. -/
def emptyTbl : Tbl := fun _ => none

/-! ### Theorems -/

theorem dChar_digitVal : ∀ d, d < 10 → digitVal (dChar d) = d := by decide

theorem dChar_isDigit : ∀ d, d < 10 → isDigitCh (dChar d) = true := by decide

theorem natCharsAux_eq_repChars :
    ∀ fuel n acc, n < fuel → natCharsAux fuel n acc = repChars n ++ acc := by
  intro fuel
  induction fuel with
  | zero => intro n acc h; omega
  | succ f ih =>
    intro n acc h
    by_cases h10 : n < 10
    · simp only [natCharsAux, if_pos h10]
      by_cases h0 : n = 0
      · subst h0; simp [repChars, dChar]
      · have : Nat.digits 10 n = [n] := Nat.digits_of_lt 10 n h0 h10
        simp [repChars, h0, this]
    · simp only [natCharsAux, if_neg h10]
      have hdiv : n / 10 < f := by omega
      rw [ih (n / 10) (dChar (n % 10) :: acc) hdiv]
      have hpos : 0 < n := by omega
      have hstep : Nat.digits 10 n = n % 10 :: Nat.digits 10 (n / 10) :=
        Nat.digits_def' (by norm_num) hpos
      have hdnz : n / 10 ≠ 0 := by omega
      have hnz : n ≠ 0 := by omega
      simp [repChars, hnz, hdnz, hstep]

theorem natChars_eq_repChars (n : Nat) : natChars n = repChars n := by
  have := natCharsAux_eq_repChars (n + 1) n [] (by omega)
  simpa [natChars] using this

theorem repChars_ne_nil (n : Nat) : repChars n ≠ [] := by
  by_cases h0 : n = 0
  · subst h0; simp [repChars]
  · simp only [repChars, if_neg h0]
    have : Nat.digits 10 n ≠ [] := Nat.digits_ne_nil_iff_ne_zero.mpr h0
    simp [this]

theorem repChars_all_digits (n : Nat) :
    ∀ c ∈ repChars n, isDigitCh c = true := by
  intro c hc
  by_cases h0 : n = 0
  · subst h0; simp [repChars] at hc; subst hc; decide
  · simp only [repChars, if_neg h0, List.mem_map, List.mem_reverse] at hc
    obtain ⟨d, hd, rfl⟩ := hc
    exact dChar_isDigit d (Nat.digits_lt_base (by norm_num) hd)

theorem digitsVal_append_singleton (ds : List Char) (c : Char) :
    digitsVal (ds ++ [c]) = 10 * digitsVal ds + digitVal c := by
  simp [digitsVal, List.foldl_append]

theorem digitsVal_rev_map (L : List Nat) (hL : ∀ d ∈ L, d < 10) :
    digitsVal (L.reverse.map dChar) = Nat.ofDigits 10 L := by
  induction L with
  | nil => simp [digitsVal, Nat.ofDigits]
  | cons d L ih =>
    have hd : d < 10 := hL d (by simp)
    have hL' : ∀ x ∈ L, x < 10 := fun x hx => hL x (by simp [hx])
    simp only [List.reverse_cons, List.map_append, List.map_cons, List.map_nil]
    rw [digitsVal_append_singleton, ih hL', dChar_digitVal d hd,
      Nat.ofDigits_cons]
    omega

theorem digitsVal_repChars (n : Nat) : digitsVal (repChars n) = n := by
  by_cases h0 : n = 0
  · subst h0; simp [repChars, digitsVal, digitVal]
  · simp only [repChars, if_neg h0]
    rw [digitsVal_rev_map _ (fun d hd => Nat.digits_lt_base (by norm_num) hd)]
    exact Nat.ofDigits_digits 10 n

/-- `takeWhile`/`dropWhile` on `l ++ r` when every element of `l` satisfies
`p` and the head of `r` (if any) does not. -/
theorem takeWhile_dropWhile_append {p : Char → Bool} (l r : List Char)
    (hl : ∀ c ∈ l, p c = true)
    (hr : ∀ c, r.head? = some c → p c = false) :
    (l ++ r).takeWhile p = l ∧ (l ++ r).dropWhile p = r := by
  induction l with
  | nil =>
    simp only [List.nil_append]
    cases r with
    | nil => simp
    | cons c r' =>
      have := hr c rfl
      simp [List.takeWhile, List.dropWhile, this]
  | cons a l ih =>
    have ha : p a = true := hl a (by simp)
    have hl' : ∀ c ∈ l, p c = true := fun c hc => hl c (by simp [hc])
    obtain ⟨h1, h2⟩ := ih hl'
    simp [List.takeWhile, List.dropWhile, ha, h1, h2]

theorem parseNatPre_spec (n : Nat) (rest : List Char)
    (hrest : ∀ c, rest.head? = some c → isDigitCh c = false) :
    parseNatPre (natChars n ++ rest) = some (n, rest) := by
  rw [natChars_eq_repChars]
  obtain ⟨h1, h2⟩ :=
    takeWhile_dropWhile_append (repChars n) rest (repChars_all_digits n) hrest
  have hne := repChars_ne_nil n
  simp only [parseNatPre, h1, h2]
  rw [if_neg (by simpa using hne)]
  rw [digitsVal_repChars]

theorem natChars_ne_nil (n : Nat) : natChars n ≠ [] := by
  rw [natChars_eq_repChars]; exact repChars_ne_nil n

theorem natChars_all_digits (n : Nat) :
    ∀ c ∈ natChars n, isDigitCh c = true := by
  rw [natChars_eq_repChars]; exact repChars_all_digits n

theorem natChars_head_digit (n : Nat) :
    ∀ c, (natChars n).head? = some c → isDigitCh c = true := by
  intro c hc
  exact natChars_all_digits n c (List.mem_of_mem_head? hc)

theorem head?_append_of_ne_nil (l r : List Char) (h : l ≠ []) :
    (l ++ r).head? = l.head? := by
  cases l with
  | nil => exact absurd rfl h
  | cons a l' => rfl

theorem digit_ne_of_not_digit {c d : Char} (hc : isDigitCh c = true)
    (hd : isDigitCh d = false) : c ≠ d := by
  intro h; rw [h] at hc; rw [hc] at hd; cases hd

theorem natChars_head_ne (n : Nat) (d : Char) (hd : isDigitCh d = false) :
    (natChars n).head? ≠ some d := by
  intro h
  exact absurd rfl (digit_ne_of_not_digit (natChars_head_digit n d h) hd)

theorem parseStrPre_spec (s : String) (rest : List Char) :
    parseStrPre (encStr s ++ rest) = some (s, rest) := by
  have hcolon : isDigitCh ':' = false := by decide
  have hp : parseNatPre (natChars s.length ++ ':' :: (s.data ++ rest)) =
      some (s.length, ':' :: (s.data ++ rest)) := by
    apply parseNatPre_spec
    intro c hc
    simp only [List.head?] at hc
    cases hc; exact hcolon
  have hlen : s.length = s.data.length := rfl
  simp only [encStr, parseStrPre, List.append_assoc, List.cons_append, hp]
  rw [if_pos (by rw [hlen]; simp)]
  rw [List.take_left' hlen.symm, List.drop_left' hlen.symm]

theorem parseIntPre_spec (z : Int) (rest : List Char) :
    parseIntPre (encInt z ++ rest) = some (z, rest) := by
  have hsemi : isDigitCh ';' = false := by decide
  have hp : parseNatPre (natChars z.natAbs ++ ';' :: rest) =
      some (z.natAbs, ';' :: rest) := by
    apply parseNatPre_spec
    intro c hc
    simp only [List.head?] at hc
    cases hc; exact hsemi
  by_cases hneg : z < 0
  · have hz : -((z.natAbs : Int)) = z := by omega
    have henc : encInt z ++ rest = '-' :: (natChars z.natAbs ++ ';' :: rest) := by
      simp [encInt, hneg]
    rw [henc]
    simp [parseIntPre, hp, hz]
    rw [Int.abs_eq_natAbs]
    omega
  · have hz : ((z.natAbs : Int)) = z := by omega
    have henc : encInt z ++ rest = natChars z.natAbs ++ ';' :: rest := by
      simp [encInt, hneg]
    have hhd : (natChars z.natAbs).head? ≠ some '-' :=
      natChars_head_ne _ '-' (by decide)
    rw [henc]
    simp [parseIntPre, hp, hz, hhd]

theorem parseOptPre_spec {α : Type} (enc : α → List Char)
    (p : List Char → Option (α × List Char))
    (hp : ∀ a rest, p (enc a ++ rest) = some (a, rest))
    (o : Option α) (rest : List Char) :
    parseOptPre p (encOpt enc o ++ rest) = some (o, rest) := by
  cases o with
  | none => rfl
  | some a => simp [encOpt, parseOptPre, hp a rest]

theorem parseIDPre_spec (v : IDValue) (rest : List Char) :
    parseIDPre (encID v ++ rest) = some (v, rest) := by
  cases v with
  | num z => simp [encID, parseIDPre, parseIntPre_spec z rest]
  | str s => simp [encID, parseIDPre, parseStrPre_spec s rest]

theorem parseRespErrPre_spec (e : ResponseError) (rest : List Char) :
    parseRespErrPre (encRespErr e ++ rest) = some (e, rest) := by
  simp only [encRespErr, parseRespErrPre, List.append_assoc,
    parseIntPre_spec e.code, parseStrPre_spec e.message]

theorem parseMessagePre_spec (m : Message) (rest : List Char) :
    parseMessagePre (marshalMessage m ++ rest) = some (m, rest) := by
  simp only [marshalMessage, parseMessagePre, List.append_assoc,
    parseStrPre_spec,
    parseOptPre_spec encID parseIDPre parseIDPre_spec,
    parseOptPre_spec encStr parseStrPre parseStrPre_spec,
    parseOptPre_spec encRespErr parseRespErrPre parseRespErrPre_spec]

theorem unmarshal_marshal (m : Message) :
    unmarshalMessage (marshalMessage m) = some m := by
  have := parseMessagePre_spec m []
  rw [List.append_nil] at this
  simp [unmarshalMessage, this]

/-! ### Framing lemmas -/

theorem digit_not_space {c : Char} (h : isDigitCh c = true) :
    isSpaceCh c = false := by
  have h48 : 48 ≤ c.toNat ∧ c.toNat ≤ 57 := by
    simpa [isDigitCh] using h
  by_contra hsp
  have hsp' : isSpaceCh c = true := by
    cases hx : isSpaceCh c with
    | true => rfl
    | false => exact absurd hx hsp
  simp only [isSpaceCh, Bool.or_eq_true, beq_iff_eq] at hsp'
  rcases hsp' with ((((h1 | h1) | h1) | h1) | h1) | h1 <;>
    (subst h1; revert h48; decide)

theorem natChars_no_newline (n : Nat) : '\n' ∉ natChars n := by
  intro h
  have hd := natChars_all_digits n '\n' h
  revert hd; decide

theorem splitLine_append (l r : List Char) (hl : '\n' ∉ l) :
    splitLine (l ++ '\n' :: r) = some (l ++ ['\n'], r) := by
  induction l with
  | nil => simp [splitLine]
  | cons c l' ih =>
    have hc : c ≠ '\n' := by intro h; exact hl (by simp [h])
    have hl' : '\n' ∉ l' := fun h => hl (by simp [h])
    simp [splitLine, hc, ih hl']

theorem trimAscii_spec (l tail : List Char) (hne : l ≠ [])
    (hhd : ∀ c, l.head? = some c → isSpaceCh c = false)
    (hlast : ∀ c, l.getLast? = some c → isSpaceCh c = false)
    (htail : ∀ c ∈ tail, isSpaceCh c = true) :
    trimAscii (l ++ tail) = l := by
  obtain ⟨c, l', rfl⟩ := List.exists_cons_of_ne_nil hne
  have hc : isSpaceCh c = false := hhd c rfl
  have h1 : ((c :: l') ++ tail).dropWhile isSpaceCh = (c :: l') ++ tail := by
    simp [List.dropWhile_cons, hc]
  rw [trimAscii, h1]
  have h2 : (((c :: l') ++ tail).reverse).dropWhile isSpaceCh =
      (c :: l').reverse := by
    rw [List.reverse_append]
    exact (takeWhile_dropWhile_append tail.reverse (c :: l').reverse
      (fun x hx => htail x (List.mem_reverse.mp hx))
      (fun x hx => hlast x (by rwa [List.head?_reverse] at hx))).2
  rw [h2, List.reverse_reverse]

theorem isPrefixL_append (p r : List Char) : isPrefixL p (p ++ r) = true := by
  induction p with
  | nil => rfl
  | cons c p' ih => simp [isPrefixL, ih]

theorem scanSigned_natChars (n : Nat) :
    scanSigned (natChars n) = Except.ok ((n : Int)) := by
  obtain ⟨c, cs, hcc⟩ := List.exists_cons_of_ne_nil (natChars_ne_nil n)
  have hc : isDigitCh c = true := by
    apply natChars_all_digits n; rw [hcc]; simp
  have hdm : c ≠ '-' := digit_ne_of_not_digit hc (by decide)
  have hdp : c ≠ '+' := digit_ne_of_not_digit hc (by decide)
  have hparse : parseNatPre (c :: cs) = some (n, []) := by
    rw [← hcc]
    simpa using parseNatPre_spec n []
  rw [hcc]
  simp only [scanSigned]
  rw [if_neg (by simp [hdm, hdp]), hparse]

theorem dropWhile_sp_natChars (n : Nat) :
    (natChars n).dropWhile isSpaceCh = natChars n := by
  obtain ⟨c, cs, hcc⟩ := List.exists_cons_of_ne_nil (natChars_ne_nil n)
  have hc : isDigitCh c = true := by
    apply natChars_all_digits n; rw [hcc]; simp
  have hsp : isSpaceCh c = false := digit_not_space hc
  rw [hcc, List.dropWhile_cons, hsp]
  simp

theorem scanCL_natChars (n : Nat) : scanCL (natChars n) = Except.ok ((n : Int)) := by
  rw [scanCL, dropWhile_sp_natChars, scanSigned_natChars]

theorem clKey_ne_nil : clKey ≠ [] := by decide

/-- One step of `readHeaders` on a `Content-Length` header line carrying
the decimal rendering of `n`. -/
theorem readHeaders_cl_line (cl : Int) (n : Nat) (rest : List Char) :
    readHeaders cl (clKey ++ natChars n ++ '\r' :: '\n' :: rest) =
      readHeaders (n : Int) rest := by
  have hsh : clKey ++ natChars n ++ '\r' :: '\n' :: rest =
      (clKey ++ natChars n ++ ['\r']) ++ '\n' :: rest := by
    simp
  have hnl : '\n' ∉ clKey ++ natChars n ++ ['\r'] := by
    intro h
    rcases List.mem_append.mp h with h | h
    · rcases List.mem_append.mp h with h | h
      · revert h; decide
      · exact natChars_no_newline n h
    · revert h; decide
  have htrim : trimAscii ((clKey ++ natChars n ++ ['\r']) ++ ['\n']) =
      clKey ++ natChars n := by
    have hsh2 : (clKey ++ natChars n ++ ['\r']) ++ ['\n'] =
        (clKey ++ natChars n) ++ ['\r', '\n'] := by simp
    rw [hsh2]
    apply trimAscii_spec
    · simp [clKey_ne_nil]
    · intro c hc
      rw [head?_append_of_ne_nil _ _ clKey_ne_nil] at hc
      have hck : clKey.head? = some 'C' := by decide
      rw [hck] at hc
      have : c = 'C' := (Option.some_inj.mp hc).symm
      subst this; decide
    · intro c hc
      rw [List.getLast?_append_of_ne_nil _ (natChars_ne_nil n)] at hc
      have hmem : c ∈ natChars n :=
        List.mem_of_mem_getLast? (Option.mem_def.mpr hc)
      exact digit_not_space (natChars_all_digits n c hmem)
    · intro c hc
      simp only [List.mem_cons, List.not_mem_nil, or_false] at hc
      rcases hc with rfl | rfl <;> decide
  rw [hsh, readHeaders, splitLine_append _ rest hnl]
  simp only [htrim]
  rw [if_neg (show ¬(clKey ++ natChars n = []) from by simp [clKey_ne_nil])]
  rw [if_pos (isPrefixL_append clKey (natChars n))]
  rw [List.drop_left' rfl]
  rw [scanCL_natChars n]

/-- One step of `readHeaders` on an empty (header-terminating) line. -/
theorem readHeaders_empty_line (cl : Int) (rest : List Char) :
    readHeaders cl ('\r' :: '\n' :: rest) = .ok (cl, rest) := by
  have hsp : splitLine ('\r' :: '\n' :: rest) = some (['\r', '\n'], rest) := by
    simpa using splitLine_append ['\r'] rest (by decide)
  rw [readHeaders, hsp]
  rfl

theorem junkCh_spec {c : Char} (h : junkCh c = true) :
    isSpaceCh c = false ∧ isDigitCh c = false ∧ c ≠ '\n' ∧ c ≠ '-' ∧ c ≠ '+' := by
  simp only [junkCh, Bool.and_eq_true, Bool.not_eq_true', bne_iff_ne] at h
  exact ⟨h.1.1.1.1, h.1.1.1.2, h.1.1.2, h.1.2, h.2⟩

theorem scanSigned_junk (v : List Char) (hv : v ≠ [])
    (hj : ∀ c ∈ v, junkCh c = true) :
    scanSigned v = Except.error "expected integer" := by
  obtain ⟨c, cs, rfl⟩ := List.exists_cons_of_ne_nil hv
  obtain ⟨-, hdig, -, hm, hp⟩ := junkCh_spec (hj c (by simp))
  simp only [scanSigned]
  rw [if_neg (by simp [hm, hp])]
  have htw : (c :: cs).takeWhile isDigitCh = [] := by
    simp [List.takeWhile_cons, hdig]
  rw [parseNatPre, htw]
  rfl

/-- One step of `readHeaders` on a `Content-Length` line whose value `v`
(nonempty, newline-free, ending in a non-space byte) fails the `Sscanf`
scan with error text `d`. -/
theorem readHeaders_bad_value_line (cl : Int) (v rest : List Char)
    (d : String) (hv : v ≠ []) (hnl : '\n' ∉ v)
    (hlast : ∀ c, v.getLast? = some c → isSpaceCh c = false)
    (hscan : scanCL v = Except.error d) :
    readHeaders cl (clKey ++ v ++ '\r' :: '\n' :: rest) =
      .error (.badContentLength d) := by
  have hsh : clKey ++ v ++ '\r' :: '\n' :: rest =
      (clKey ++ v ++ ['\r']) ++ '\n' :: rest := by
    simp
  have hnl2 : '\n' ∉ clKey ++ v ++ ['\r'] := by
    intro h
    rcases List.mem_append.mp h with h | h
    · rcases List.mem_append.mp h with h | h
      · revert h; decide
      · exact hnl h
    · revert h; decide
  have htrim : trimAscii ((clKey ++ v ++ ['\r']) ++ ['\n']) = clKey ++ v := by
    have hsh2 : (clKey ++ v ++ ['\r']) ++ ['\n'] =
        (clKey ++ v) ++ ['\r', '\n'] := by simp
    rw [hsh2]
    apply trimAscii_spec
    · simp [clKey_ne_nil]
    · intro c hc
      rw [head?_append_of_ne_nil _ _ clKey_ne_nil] at hc
      have hck : clKey.head? = some 'C' := by decide
      rw [hck] at hc
      have : c = 'C' := (Option.some_inj.mp hc).symm
      subst this; decide
    · intro c hc
      rw [List.getLast?_append_of_ne_nil _ hv] at hc
      exact hlast c hc
    · intro c hc
      simp only [List.mem_cons, List.not_mem_nil, or_false] at hc
      rcases hc with rfl | rfl <;> decide
  rw [hsh, readHeaders, splitLine_append _ rest hnl2]
  simp only [htrim]
  rw [if_neg (show ¬(clKey ++ v = []) from by simp [clKey_ne_nil])]
  rw [if_pos (isPrefixL_append clKey v)]
  rw [List.drop_left' rfl]
  rw [hscan]

/-- One step of `readHeaders` on a `Content-Length` line whose value is a
nonempty run of junk characters: the `Sscanf` step fails with
`expected integer`. -/
theorem readHeaders_junk_line (cl : Int) (v rest : List Char) (hv : v ≠ [])
    (hj : ∀ c ∈ v, junkCh c = true) :
    readHeaders cl (clKey ++ v ++ '\r' :: '\n' :: rest) =
      .error (.badContentLength "expected integer") := by
  apply readHeaders_bad_value_line cl v rest "expected integer" hv
  · intro h
    exact (junkCh_spec (hj _ h)).2.2.1 rfl
  · intro c hc
    have hmem : c ∈ v := List.mem_of_mem_getLast? (Option.mem_def.mpr hc)
    exact (junkCh_spec (hj c hmem)).1
  · obtain ⟨c, cs, rfl⟩ := List.exists_cons_of_ne_nil hv
    obtain ⟨hsp, -, -, -, -⟩ := junkCh_spec (hj c (by simp))
    rw [scanCL, List.dropWhile_cons, hsp]
    simp only [Bool.false_eq_true, if_false]
    exact scanSigned_junk _ hv hj

/-- One step of `readHeaders` on a `Content-Length` line whose value is a
lone sign: `%d` accepts the sign, then hits end of input, and the
`Sscanf` failure is `io.EOF`, whose text is `EOF`. -/
theorem readHeaders_dash_line (cl : Int) (rest : List Char) :
    readHeaders cl (clKey ++ '-' :: '\r' :: '\n' :: rest) =
      .error (.badContentLength "EOF") := by
  have h := readHeaders_bad_value_line cl ['-'] rest "EOF"
    (by decide) (by decide) (by intro c hc; cases hc; decide) rfl
  simpa using h

theorem readFull_exact (body rest : List Char) :
    readFull body.length (body ++ rest) = .ok (body, rest) := by
  rw [readFull, if_neg (by simp)]
  rw [List.take_left' rfl, List.drop_left' rfl]

/-- The full decode of a full encode: round trip of the wire codec, with
any trailing stream content left unread. -/
theorem ReadMessage_WriteMessage (m : Message) (rest : List Char) :
    ReadMessage (WriteMessage m ++ rest) = .ok (m, rest) := by
  have hshape : WriteMessage m ++ rest =
      clKey ++ natChars (marshalMessage m).length ++
        '\r' :: '\n' :: ('\r' :: '\n' :: (marshalMessage m ++ rest)) := by
    simp [WriteMessage]
  have hneg : ¬(((marshalMessage m).length : Int) < 0) := by omega
  rw [ReadMessage, hshape, readHeaders_cl_line, readHeaders_empty_line]
  simp only [if_neg hneg, Int.toNat_ofNat, readFull_exact, unmarshal_marshal]

/-- A stream whose header block has no `Content-Length` header at all:
the length keeps the Go zero value `0`, the body read returns zero bytes,
and the failure comes from deserialization, not from the header scan. -/
theorem ReadMessage_no_cl_header (rest : List Char) :
    ReadMessage ('\r' :: '\n' :: rest) = .error .unmarshalFailed := by
  have hfull : readFull (0 : Nat) rest = .ok ([], rest) := by
    rw [readFull, if_neg (by omega)]
    simp
  have hum : unmarshalMessage ([] : List Char) = none := rfl
  rw [ReadMessage, readHeaders_empty_line]
  simp only [if_neg (show ¬((0 : Int) < 0) from by decide), Int.toNat_zero,
    hfull, hum]

/-- A stream whose `Content-Length` value is an unscannable junk run:
the header scan itself fails, wrapping `Sscanf`'s `expected integer`. -/
theorem ReadMessage_junk_cl (v rest : List Char) (hv : v ≠ [])
    (hj : ∀ c ∈ v, junkCh c = true) :
    ReadMessage (clKey ++ v ++ '\r' :: '\n' :: rest) =
      .error (.badContentLength "expected integer") := by
  rw [ReadMessage, readHeaders_junk_line 0 v rest hv hj]

/-- A stream whose `Content-Length` value is a lone `-`: the header scan
fails wrapping `io.EOF`, so the resulting error text contains `EOF`. -/
theorem ReadMessage_dash_cl (rest : List Char) :
    ReadMessage (clKey ++ '-' :: '\r' :: '\n' :: rest) =
      .error (.badContentLength "EOF") := by
  rw [ReadMessage, readHeaders_dash_line 0 rest]

/-! ### Helper lemmas on classification and dispatch -/

theorem classify_peerRequest_iff (m : Message) :
    classify m = MsgClass.peerRequest ↔ (m.method ≠ "" ∧ m.id.isSome) := by
  rw [classify]
  split_ifs with h1 h2 h3 <;> simp_all

theorem classify_peerNotification_iff (m : Message) :
    classify m = MsgClass.peerNotification ↔
      (m.method ≠ "" ∧ ¬m.id.isSome = true) := by
  rw [classify]
  split_ifs with h1 h2 h3 <;> simp_all

theorem classify_response_iff (m : Message) :
    classify m = MsgClass.response ↔ (m.method = "" ∧ m.id.isSome) := by
  rw [classify]
  split_ifs with h1 h2 h3 <;> simp_all

theorem classify_malformed_iff (m : Message) :
    classify m = MsgClass.malformed ↔ (m.method = "" ∧ ¬m.id.isSome = true) := by
  rw [classify]
  split_ifs with h1 h2 h3 <;> simp_all

theorem stepMessage_malformed (c : ClientState) (m : Message)
    (h : classify m = MsgClass.malformed) :
    stepMessage c m = ⟨[], none, [], []⟩ := by
  obtain ⟨hm, hid⟩ := (classify_malformed_iff m).mp h
  rw [stepMessage, if_neg (by simp [hm]), if_neg (by simp [hm])]
  cases hi : m.id with
  | none => rfl
  | some v => rw [hi] at hid; simp at hid

theorem handleRequest_shape (c : ClientState) (m : Message) :
    (handleRequest c m).1.id = m.id ∧ (handleRequest c m).1.jsonrpc = "2.0" := by
  rcases hh : c.serverRequestHandlers m.method with _ | hd
  · simp [handleRequest, hh]
  · rcases hr : hd m.params with e | v
    · simp [handleRequest, hh, hr]
    · rcases v with raw | e <;> simp [handleRequest, hh, hr, marshalV]

theorem stepMessage_delivered (tbl : Tbl) (m : Message) :
    (stepMessage (clientWithTbl tbl) m).delivered =
      if m.method = "" then
        match m.id with
        | some v => (tbl v.toKey).map (fun ch => (ch, m))
        | none => none
      else none := by
  by_cases h1 : m.method ≠ "" ∧ m.id.isSome
  · rw [stepMessage, if_pos h1, if_neg (by simp [h1.1])]
  · rw [stepMessage, if_neg h1]
    by_cases h2 : m.method ≠ ""
    · rw [if_pos h2, if_neg (by simp [h2])]
      rcases (clientWithTbl tbl).notificationHandlers m.method with _ | h <;> rfl
    · have hm : m.method = "" := by simpa using h2
      rw [if_neg h2, if_pos hm]
      cases hi : m.id with
      | none => rfl
      | some v =>
        cases ht : tbl v.toKey with
        | none => simp [clientWithTbl, ht]
        | some ch => simp [clientWithTbl, ht]

theorem delivered_cases (tbl : Tbl) (m : Message) (p : Nat × Message)
    (h : (stepMessage (clientWithTbl tbl) m).delivered = some p) :
    p.2 = m ∧ m.method = "" ∧ ∃ v, m.id = some v ∧ tbl v.toKey = some p.1 := by
  rw [stepMessage_delivered] at h
  by_cases hm : m.method = ""
  · rw [if_pos hm] at h
    cases hid : m.id with
    | none => rw [hid] at h; cases h
    | some v =>
      rw [hid] at h
      have h2 : Option.map (fun ch => (ch, m)) (tbl v.toKey) = some p := h
      cases htb : tbl v.toKey with
      | none => rw [htb] at h2; cases h2
      | some ch2 =>
        rw [htb] at h2
        cases h2
        exact ⟨rfl, hm, v, rfl, htb⟩
  · rw [if_neg hm] at h; cases h

theorem receivedBy_cons_none (tbl : Tbl) (ms : List Message) (ch : Nat)
    (m : Message) (h : (stepMessage (clientWithTbl tbl) m).delivered = none) :
    receivedBy tbl (m :: ms) ch = receivedBy tbl ms ch := by
  simp [receivedBy, deliveries, List.filterMap_cons, h]

theorem receivedBy_cons_some_ne (tbl : Tbl) (ms : List Message) (ch : Nat)
    (m : Message) (p : Nat × Message)
    (h : (stepMessage (clientWithTbl tbl) m).delivered = some p)
    (hne : p.1 ≠ ch) :
    receivedBy tbl (m :: ms) ch = receivedBy tbl ms ch := by
  simp [receivedBy, deliveries, List.filterMap_cons, h, List.filter_cons, hne]

theorem receivedBy_cons_some_eq (tbl : Tbl) (ms : List Message) (ch : Nat)
    (m : Message) (p : Nat × Message)
    (h : (stepMessage (clientWithTbl tbl) m).delivered = some p)
    (heq : p.1 = ch) :
    receivedBy tbl (m :: ms) ch = p.2 :: receivedBy tbl ms ch := by
  simp [receivedBy, deliveries, List.filterMap_cons, h, List.filter_cons, heq]

theorem receivedBy_replicate (tbl : Tbl) (k : String) (ch : Nat) (r : Message)
    (hreg : tbl k = some ch)
    (hfresh : ∀ k2 ch2, tbl k2 = some ch2 → ch2 = ch → k2 = k)
    (hkey : respKey r = some k) (hmeth : r.method = "") :
    ∀ msgs : List Message, (∀ r2 ∈ msgs, respKey r2 = some k → r2 = r) →
      receivedBy tbl msgs ch = List.replicate (msgs.count r) r := by
  obtain ⟨v, hv, hvk⟩ : ∃ v, r.id = some v ∧ v.toKey = k := by
    cases hid : r.id with
    | none => rw [respKey, hid] at hkey; cases hkey
    | some v =>
      rw [respKey, hid] at hkey
      exact ⟨v, rfl, Option.some_inj.mp hkey⟩
  have hdr : (stepMessage (clientWithTbl tbl) r).delivered = some (ch, r) := by
    rw [stepMessage_delivered, if_pos hmeth, hv]
    show Option.map (fun ch => (ch, r)) (tbl v.toKey) = some (ch, r)
    rw [hvk, hreg]
    rfl
  intro msgs
  induction msgs with
  | nil => intro _; rfl
  | cons m ms ih =>
    intro huniq
    have huniq2 : ∀ r2 ∈ ms, respKey r2 = some k → r2 = r :=
      fun r2 h2 => huniq r2 (by simp [h2])
    by_cases hmr : m = r
    · subst hmr
      rw [receivedBy_cons_some_eq tbl ms ch m (ch, m) hdr rfl, ih huniq2,
        List.count_cons_self, List.replicate_succ]
    · have hdm : ∀ p, (stepMessage (clientWithTbl tbl) m).delivered = some p →
          p.1 ≠ ch := by
        intro p hp hpch
        obtain ⟨hp2, hpm, v2, hid2, htb2⟩ := delivered_cases tbl m p hp
        have hk2 : v2.toKey = k := hfresh v2.toKey p.1 htb2 hpch
        exact hmr (huniq m (by simp) (by simp [respKey, hid2, hk2]))
      have hcnt : (m :: ms).count r = ms.count r :=
        List.count_cons_of_ne (fun h => hmr h.symm) ms
      cases hdel : (stepMessage (clientWithTbl tbl) m).delivered with
      | none =>
        rw [receivedBy_cons_none tbl ms ch m hdel, ih huniq2, hcnt]
      | some p =>
        rw [receivedBy_cons_some_ne tbl ms ch m p hdel (hdm p hdel),
          ih huniq2, hcnt]

theorem callStep_table (tbl : Tbl) (idNum : Int) (ch : Nat) (env : CallEnv)
    (sink : SinkKind) :
    (callStep tbl idNum ch env sink).2 =
      deletePending (registerPending tbl ⟨intChars idNum⟩ ch)
        ⟨intChars idNum⟩ := by
  rcases env with _ | _ | resp
  · rfl
  · rfl
  · rcases hre : resp.error with _ | e
    · rcases sink with _ | _ | ok
      · simp [callStep, hre]
      · simp [callStep, hre]
      · rcases ok <;> simp [callStep, hre]
    · simp only [callStep, hre]
      split_ifs <;> rfl

theorem wTbl_fresh : ∀ k2 ch2, wTbl k2 = some ch2 → ch2 = 10 → k2 = "1" := by
  intro k2 ch2 h hch
  by_cases h1 : k2 = "1"
  · exact h1
  · by_cases h2 : k2 = "2"
    · subst h2
      simp [wTbl] at h
      omega
    · simp [wTbl, h1, h2] at h

/-! ### The claims -/

/-- C1: for every set of concurrent `Call` invocations with distinct
request identifiers — a correlation table in which each waiter's channel
is registered under its own canonical key, channels being distinct — and
every inbound message list in which exactly one response bears a given
waiter's key, that waiter's channel receives exactly its own matching
response and receives it at most once, whatever order the responses
arrive in (any permutation of the list); a response is never delivered to
a waiter registered under a different identifier. -/
theorem C1_exact_delivery (tbl : Tbl) (msgs : List Message) (k : String)
    (ch : Nat) (r : Message)
    (hreg : tbl k = some ch)
    (hfresh : ∀ k2 ch2, tbl k2 = some ch2 → ch2 = ch → k2 = k)
    (hkey : respKey r = some k) (hmeth : r.method = "")
    (hcount : msgs.count r = 1)
    (huniq : ∀ r2 ∈ msgs, respKey r2 = some k → r2 = r) :
    ∀ msgs2, msgs.Perm msgs2 → receivedBy tbl msgs2 ch = [r] := by
  intro msgs2 hperm
  have hcount2 : msgs2.count r = 1 := by
    rw [← hperm.count_eq]
    exact hcount
  have huniq2 : ∀ r2 ∈ msgs2, respKey r2 = some k → r2 = r := fun r2 h2 =>
    huniq r2 (hperm.mem_iff.mpr h2)
  have h := receivedBy_replicate tbl k ch r hreg hfresh hkey hmeth msgs2 huniq2
  rw [hcount2] at h
  simpa using h

/-- C1 witness: two waiters registered under keys "1" and "2"; the two
responses arrive in the opposite of issuance order; channel 10 receives
exactly the response with identifier 1. -/
theorem C1_witness : receivedBy wTbl [wResp2, wResp1] 10 = [wResp1] :=
  C1_exact_delivery wTbl [wResp1, wResp2] "1" 10 wResp1
    (by decide) wTbl_fresh (by decide) rfl (by decide) (by decide)
    [wResp2, wResp1] (List.Perm.swap wResp2 wResp1 [])

/-- C2: for every well-formed `Message` `m`, decoding the byte stream
produced by encoding `m` (`ReadMessage` applied to the output of
`WriteMessage`) yields a message equal to `m` field-for-field, leaving any
following stream content unread. -/
theorem C2_round_trip (m : Message) (rest : List Char) :
    ReadMessage (WriteMessage m ++ rest) = Except.ok (m, rest) :=
  ReadMessage_WriteMessage m rest

/-- C3 counterexample: a stream whose header block lacks the
`Content-Length` header entirely (an immediate empty header line) makes
`ReadMessage` fail with the body-deserialization failure — the length
defaults to the Go zero value 0 and the empty body does not parse — not
with the header-specific (`invalid Content-Length`) failure the claim
requires for the missing-header case. -/
theorem C3_counterexample :
    ReadMessage ['\r', '\n'] = Except.error ReadErr.unmarshalFailed ∧
    ReadErr.unmarshalFailed ≠ ReadErr.badContentLength "expected integer" ∧
    ReadErr.unmarshalFailed ≠ ReadErr.badContentLength "EOF" :=
  ⟨ReadMessage_no_cl_header [], by decide, by decide⟩

/-- C3 amended: when a `Content-Length` header is present but its value
is unscannable, decode fails with the header-specific failure
(`badContentLength`, wrapping `Sscanf`'s `expected integer` text,
distinct from the body-truncation and body-parse failures); when the
length header is missing entirely, the length keeps the Go zero value 0
and decode fails with the body-parse failure (`unmarshalFailed`) on the
zero-length body. -/
theorem C3_amended (v rest1 rest2 : List Char) (hv : v ≠ [])
    (hj : ∀ c ∈ v, junkCh c = true) :
    ReadMessage (clKey ++ v ++ '\r' :: '\n' :: rest1) =
        Except.error (ReadErr.badContentLength "expected integer") ∧
    ReadMessage ('\r' :: '\n' :: rest2) =
        Except.error ReadErr.unmarshalFailed ∧
    ReadErr.badContentLength "expected integer" ≠ ReadErr.contentEOF ∧
    ReadErr.badContentLength "expected integer" ≠
      ReadErr.contentUnexpectedEOF ∧
    ReadErr.badContentLength "expected integer" ≠ ReadErr.unmarshalFailed :=
  ⟨ReadMessage_junk_cl v rest1 hv hj, ReadMessage_no_cl_header rest2,
    by decide, by decide, by decide⟩

/-- C3 witness: the unscannable value `abc` triggers the
`invalid Content-Length` failure. -/
theorem C3_witness :
    "abc".data ≠ [] ∧ (∀ c ∈ "abc".data, junkCh c = true) ∧
    ReadMessage (clKey ++ "abc".data ++ '\r' :: '\n' :: []) =
      Except.error (ReadErr.badContentLength "expected integer") :=
  ⟨by decide, by decide,
    (C3_amended "abc".data [] [] (by decide) (by decide)).1⟩

/-- C4 counterexample: a truncated body — declared length 5, only two
body bytes before end-of-stream — fails with the body-truncation error,
which is distinct from the header-EOF error, yet the dispatch loop
treats it as a clean close because its rendered error text contains
`"EOF"`; the claim requires a truncated body to terminate the loop as an
error. -/
theorem C4_counterexample :
    ReadMessage ("Content-Length: 5\r\n\r\nab".data) =
        Except.error ReadErr.contentUnexpectedEOF ∧
    ReadErr.contentUnexpectedEOF ≠ ReadErr.headerEOF ∧
    loopExitOf ReadErr.contentUnexpectedEOF = LoopExit.clean := by
  have hshape : ("Content-Length: 5\r\n\r\nab").data =
      clKey ++ natChars 5 ++ '\r' :: '\n' :: ('\r' :: '\n' :: "ab".data) := by
    decide
  refine ⟨?_, by decide, by decide⟩
  rw [ReadMessage, hshape, readHeaders_cl_line, readHeaders_empty_line]
  rfl

/-- C4 amended: end-of-stream during the header read is reported as its
own failure kind (`headerEOF`, a distinct error from every other decode
failure), and the loop terminates on every decode failure — but whether
it terminates cleanly is decided by a substring test for `"EOF"` on the
error text, so the clean exits are header EOF, the two body-truncation
EOFs, and also a malformed `Content-Length` whose `Sscanf` failed at end
of input (a lone sign wraps `io.EOF`, reachable as the last conjunct
shows); only failures whose text lacks `"EOF"` — a non-numeric
`Content-Length` value, an unparsable body — terminate as errors. -/
theorem C4_amended :
    loopExitOf ReadErr.headerEOF = LoopExit.clean ∧
    loopExitOf ReadErr.contentEOF = LoopExit.clean ∧
    loopExitOf ReadErr.contentUnexpectedEOF = LoopExit.clean ∧
    loopExitOf (ReadErr.badContentLength "EOF") = LoopExit.clean ∧
    loopExitOf (ReadErr.badContentLength "expected integer") =
      LoopExit.errorExit ∧
    loopExitOf ReadErr.unmarshalFailed = LoopExit.errorExit ∧
    ReadErr.headerEOF ≠ ReadErr.contentEOF ∧
    ReadErr.headerEOF ≠ ReadErr.contentUnexpectedEOF ∧
    ReadErr.headerEOF ≠ ReadErr.unmarshalFailed ∧
    (∀ d, ReadErr.headerEOF ≠ ReadErr.badContentLength d) ∧
    (∀ rest, ReadMessage (clKey ++ '-' :: '\r' :: '\n' :: rest) =
      Except.error (ReadErr.badContentLength "EOF")) := by
  refine ⟨by decide, by decide, by decide, by decide, by decide, by decide,
    by decide, by decide, by decide, ?_, ReadMessage_dash_cl⟩
  intro d h
  cases h

/-- C5: for every inbound message classified as a peer request (non-empty
method, non-null id), the loop iteration writes exactly one response
preserving the request's id: the handler's marshalled result on success,
error code -32603 with the handler's error text when the registered
handler fails, and error code -32601 with message
`method not found: <method>` when no handler is registered. -/
theorem C5_request_single_response (c : ClientState) (m : Message)
    (h : classify m = MsgClass.peerRequest) :
    (∃ resp, (stepMessage c m).outMsgs = [resp] ∧ resp.id = m.id ∧
      resp.jsonrpc = "2.0") ∧
    (c.serverRequestHandlers m.method = none →
      (stepMessage c m).outMsgs =
        [⟨"2.0", m.id, "", none, none,
          some ⟨-32601, "method not found: " ++ m.method⟩⟩]) ∧
    (∀ hd e, c.serverRequestHandlers m.method = some hd →
      hd m.params = HandlerRes.failed e →
      (stepMessage c m).outMsgs =
        [⟨"2.0", m.id, "", none, none, some ⟨-32603, e⟩⟩]) ∧
    (∀ hd raw, c.serverRequestHandlers m.method = some hd →
      hd m.params = HandlerRes.succeeded (MarshalV.marshallable raw) →
      (stepMessage c m).outMsgs =
        [⟨"2.0", m.id, "", none, some raw, none⟩]) := by
  have hcond := (classify_peerRequest_iff m).mp h
  have hout : (stepMessage c m).outMsgs = [(handleRequest c m).1] := by
    rw [stepMessage, if_pos hcond]
  refine ⟨⟨(handleRequest c m).1, hout, (handleRequest_shape c m).1,
    (handleRequest_shape c m).2⟩, ?_, ?_, ?_⟩
  · intro hh
    rw [hout]
    simp [handleRequest, hh]
  · intro hd e hh hr
    rw [hout]
    simp [handleRequest, hh, hr]
  · intro hd raw hh hr
    rw [hout]
    simp [handleRequest, hh, hr, marshalV]

/-- C5 witness: a registered handler for method `m` answers request id 7
with its marshalled result in a single response. -/
theorem C5_witness :
    (stepMessage wClient wReq).outMsgs =
      [⟨"2.0", some (IDValue.num 7), "", none, some "null", none⟩] :=
  (C5_request_single_response wClient wReq (by decide)).2.2.2
    wHandler "null" (by simp [wClient, wReq]) rfl

/-- C6 counterexample: registering an identifier that is already present
in the correlation table silently overwrites the existing completion
slot — the old channel 10 is replaced by 20 — and `Call`'s registration
step has no failure outcome at all, contradicting the claim that a second
`register(id)` returns a failure rather than overwriting. -/
theorem C6_counterexample :
    (registerPending emptyTbl "1" 10) "1" = some 10 ∧
    (registerPending (registerPending emptyTbl "1" 10) "1" 20) "1" =
      some 20 := by
  constructor <;> decide

/-- C6 amended: the registration step of `Call` unconditionally inserts
the completion slot for the identifier, silently overwriting any entry
already registered under it and leaving every other key unchanged; no
failure is reported (duplicate identifiers are avoided only by the atomic
identifier generator). -/
theorem C6_amended (tbl : Tbl) (idStr : String) (ch : Nat) :
    (registerPending tbl idStr ch) idStr = some ch ∧
    ∀ k, k ≠ idStr → (registerPending tbl idStr ch) k = tbl k := by
  constructor
  · simp [registerPending]
  · intro k hk
    simp [registerPending, hk]

/-- C6 witness: registration at key 7 is visible at key 7 and invisible
at key 8. -/
theorem C6_witness :
    (registerPending emptyTbl "7" 3) "7" = some 3 ∧
    (registerPending emptyTbl "7" 3) "8" = none :=
  ⟨(C6_amended emptyTbl "7" 3).1, by
    have h := (C6_amended emptyTbl "7" 3).2 "8" (by decide)
    simpa [emptyTbl] using h⟩

/-- C7 counterexample: a sampled parent pid (200) different from the
startup value (100) does not trigger shutdown, because neither pid is the
init pid 1; the claim requires shutdown for every changed sample. -/
theorem C7_counterexample :
    parentCheckFires 100 200 = false ∧ (200 : Nat) ≠ 100 := by
  constructor <;> decide

/-- C7 amended: the parent-liveness monitor initiates shutdown exactly
when the sampled parent pid differs from the startup value AND one of the
two is the init pid 1 — i.e. the process was reparented to init, or was
started under init and got any new parent. -/
theorem C7_amended (startPpid currentPpid : Nat) :
    parentCheckFires startPpid currentPpid = true ↔
      (currentPpid ≠ startPpid ∧ (currentPpid = 1 ∨ startPpid = 1)) := by
  simp [parentCheckFires]

/-- C8 counterexample: a decoded message with no method and no identifier
matches none of the three classes and is dropped, but no warning — indeed
no log line at all — is emitted for it, contradicting the claim's
"dropped with a logged warning". -/
theorem C8_counterexample :
    classify malformedMsg = MsgClass.malformed ∧
    (stepMessage emptyClient malformedMsg).logs = [] := by
  constructor <;> rfl

/-- C8 amended: every decoded message falls into exactly one of the three
disjoint classes — peer request (method and non-null id), peer
notification (method, null id), response (non-null id, no method) — and a
message matching none of them is dropped silently (no response, no
delivery, no spawned handler, and no log line) while the loop continues
with the remaining messages. -/
theorem C8_classification (c : ClientState) (m : Message) :
    (classify m = MsgClass.peerRequest ↔ (m.method ≠ "" ∧ m.id.isSome)) ∧
    (classify m = MsgClass.peerNotification ↔
      (m.method ≠ "" ∧ ¬m.id.isSome = true)) ∧
    (classify m = MsgClass.response ↔ (m.method = "" ∧ m.id.isSome)) ∧
    (classify m = MsgClass.malformed ↔
      (m.method = "" ∧ ¬m.id.isSome = true)) ∧
    (classify m = MsgClass.malformed →
      stepMessage c m = ⟨[], none, [], []⟩ ∧
      ∀ ms, runLoop c (m :: ms) = ⟨[], none, [], []⟩ :: runLoop c ms) := by
  refine ⟨classify_peerRequest_iff m, classify_peerNotification_iff m,
    classify_response_iff m, classify_malformed_iff m, ?_⟩
  intro h
  have hstep := stepMessage_malformed c m h
  exact ⟨hstep, fun ms => by rw [runLoop, List.map_cons, hstep]; rfl⟩

/-- C8 witness: the malformed message produces the empty step and the
loop proceeds to the rest of the stream. -/
theorem C8_witness :
    stepMessage emptyClient malformedMsg = ⟨[], none, [], []⟩ ∧
    runLoop emptyClient [malformedMsg, malformedMsg] =
      [⟨[], none, [], []⟩, ⟨[], none, [], []⟩] :=
  ⟨((C8_classification emptyClient malformedMsg).2.2.2.2 rfl).1, by rfl⟩

/-- C9: on every return path of `Call` after registration — transport
write failure, context cancellation or timeout, an error response, or a
successful response (with a nil, raw, or typed result sink, the typed
unmarshal succeeding or not) — the deferred delete removes the pending
entry, so the correlation table holds no entry for the call's identifier
once `Call` returns. -/
theorem C9_pending_removed (tbl : Tbl) (idNum : Int) (ch : Nat)
    (env : CallEnv) (sink : SinkKind) :
    (callStep tbl idNum ch env sink).2 ⟨intChars idNum⟩ = none := by
  rw [callStep_table]
  simp [deletePending]

/-- C10: when a registered handler returns successfully but its result
fails to marshal, the loop still writes exactly one response for the
request, carrying error code -32603 and no result. -/
theorem C10_marshal_failure (c : ClientState) (m : Message)
    (hd : Option String → HandlerRes) (e : String)
    (hcls : classify m = MsgClass.peerRequest)
    (hh : c.serverRequestHandlers m.method = some hd)
    (hr : hd m.params = HandlerRes.succeeded (MarshalV.marshalFails e)) :
    (stepMessage c m).outMsgs =
      [⟨"2.0", m.id, "", none, none,
        some ⟨-32603, "failed to marshal response: " ++ e⟩⟩] := by
  have hcond := (classify_peerRequest_iff m).mp hcls
  rw [stepMessage, if_pos hcond]
  simp [handleRequest, hh, hr, marshalV]

/-- C10 witness: a handler whose result cannot marshal still yields one
-32603 response with no result for request id 7. -/
theorem C10_witness :
    (stepMessage wClientBad wReq).outMsgs =
      [⟨"2.0", some (IDValue.num 7), "", none, none,
        some ⟨-32603, "failed to marshal response: " ++ "unsupported type"⟩⟩] :=
  C10_marshal_failure wClientBad wReq wBadHandler "unsupported type"
    (by decide) (by simp [wClientBad, wReq]) rfl

end Mcp
